import Mathlib

/-!
Verification development for the MDAnalysis spatial density-estimation
engine (`MDAnalysis.analysis.density`).  The implementation module is not
part of the source tree here (only its test suite and the package
`__init__.py` with the exception hierarchy are), so the engine is modelled
from the specification: each definition's doc comment records what it
models.  Numeric values are rationals (`ℚ`); grids are flattened lists in
row-major (x, y, z) order.
-/

namespace MDADensity

/-- A 3D coordinate (one atom position), components in ℚ. -/
structure P3 where
  x : ℚ
  y : ℚ
  z : ℚ
deriving DecidableEq, Repr

/-- Squared Euclidean distance between two points. -/
def dist2 (p q : P3) : ℚ :=
  (p.x - q.x) ^ 2 + (p.y - q.y) ^ 2 + (p.z - q.z) ^ 2

/-- Modelled from the spec: error taxonomy of the density engine (§7 and
the exception classes in `MDAnalysis/__init__.py`): `noData` is the
`NoDataError`-equivalent fatal data error, `valueError` a configuration
error, `formatError` an unsupported-format error. -/
inductive DensityError where
  | noData
  | valueError
  | formatError
deriving DecidableEq, Repr

/-- Modelled from the spec (§4.4, numpy `histogramdd` semantics): the bin
index of scalar `x` along an axis with edge list `e`.  Bin `i` is
`[e[i], e[i+1])`, except the last bin which also includes its right edge;
values outside `[e[0], e[last]]` yield `none` (dropped, not clamped). -/
def binIdx : List ℚ → ℚ → Option ℕ
  | a :: b :: rest, xv =>
    if a ≤ xv ∧ (xv < b ∨ (rest = [] ∧ xv = b)) then some 0
    else (binIdx (b :: rest) xv).map (· + 1)
  | _, _ => none

/-- Modelled from the spec (§4.4): the flattened (row-major) 3D bin index
of a point, or `none` when the point falls outside the grid on some axis. -/
def linIdx3 (ex ey ez : List ℚ) (p : P3) : Option ℕ := do
  let i ← binIdx ex p.x
  let j ← binIdx ey p.y
  let k ← binIdx ez p.z
  pure ((i * (ey.length - 1) + j) * (ez.length - 1) + k)

/-- Modelled from the spec (§4.4 HistogramAccumulator): raw occupancy
counts over the flattened grid — cell `l` counts the points whose
flattened bin index is `l`. -/
def histcounts (pts : List P3) (ex ey ez : List ℚ) : List ℕ :=
  (List.range ((ex.length - 1) * (ey.length - 1) * (ez.length - 1))).map
    (fun l => pts.countP (fun p => linIdx3 ex ey ez p == some l))

/-- Modelled from the spec (§3 Density): the density entity — flattened
grid of cell values, per-axis edge lists, the `parameters['isDensity']`
flag and the unit mapping. -/
structure Density where
  grid : List ℚ
  edges : List (List ℚ)
  isDensity : Bool
  units : List (String × String)
deriving DecidableEq, Repr

/-- Modelled from the spec (§3): bin counts per axis, `len(edges[i]) - 1`. -/
def nbinsOf (edges : List (List ℚ)) : List ℕ :=
  edges.map (fun e => e.length - 1)

/-- Modelled from the spec (§3): `delta[i]` is the bin width per axis,
taken from the first bin of each axis. -/
def deltaOf (edges : List (List ℚ)) : List ℚ :=
  edges.map (fun e => e.getD 1 0 - e.getD 0 0)

/-- Cell volume `delta.prod()` (orthorhombic grids). -/
def deltaProd (edges : List (List ℚ)) : ℚ :=
  (deltaOf edges).prod

/-- Modelled from the spec (§3): `midpoints[i]`, recomputed from the edges
— entry `j` is the midpoint of bin `j` on axis `i`. -/
def midpointsOf (edges : List (List ℚ)) : List (List ℚ) :=
  edges.map (fun e =>
    (List.range (e.length - 1)).map (fun i => (e.getD i 0 + e.getD (i + 1) 0) / 2))

/-- Modelled from the spec (§3): `origin[i]` is the midpoint of the first
bin on axis `i`, computed directly from the first two edges. -/
def originOf (edges : List (List ℚ)) : List ℚ :=
  edges.map (fun e => (e.getD 0 0 + e.getD 1 0) / 2)

/-- Modelled from the spec (§4.5): the density unit implied by the length
unit, e.g. "A" becomes "A^\x7b-3\x7d". -/
def densityUnitOf (lengthUnit : String) : String :=
  lengthUnit ++ "^\x7b-3\x7d"

/-- Modelled from the spec (§4.5 `make_density`): when `isDensity` is
already set this is a no-op; otherwise every grid cell is divided by the
cell volume `delta.prod()`, the flag is set, and `units['density']` is
derived from `units['length']`. -/
def make_density (d : Density) : Density :=
  if d.isDensity then d
  else
    { d with
      grid := d.grid.map (· / deltaProd d.edges)
      isDensity := true
      units := d.units ++ [("density",
        densityUnitOf (((d.units.filter (fun kv => kv.1 = "length")).headD ("length", "A")).2))] }

/-- Modelled from the spec (§3 lifecycle, §4.4): a Density created from a
histogram tuple `(grid, edges)` in the raw-count state. -/
def histogramdd (pts : List P3) (ex ey ez : List ℚ) : Density :=
  { grid := (histcounts pts ex ey ez).map Nat.cast
    edges := [ex, ey, ez]
    isDensity := false
    units := [("length", "A")] }

/-- Concrete raw-count Density used to exercise the normalization round
trip: a 1×1×1 grid of bin width 2 on every axis. -/
def dRaw : Density :=
  { grid := [2, 3]
    edges := [[0, 2], [0, 2], [0, 2]]
    isDensity := false
    units := [("length", "A")] }

/-- Concrete Density with uniform three-bin edges on every axis, used to
exercise the derived grid-geometry identities. -/
def dGeo : Density :=
  { grid := [0]
    edges := [[0, 1, 2], [0, 2, 4], [1, 4, 7]]
    isDensity := false
    units := [("length", "A")] }

/-- Concrete one-point data set for exercising mass conservation: a single
point inside a 1×1×1 grid whose cell volume is 8. -/
def ptsC1 : List P3 := [⟨1, 1, 1⟩]

/-- Edge list of one bin spanning `[0, 2]`, shared by all three axes of the
mass-conservation example. -/
def edgeC1 : List ℚ := [0, 2]

/-- Modelled from the spec (§3, §4.5): a `units` argument to
`_check_set_unit`: either a mapping from unit-type keys to unit names, or
a value that is not a mapping at all (e.g. a list). -/
inductive UnitsInput where
  | mapping (m : List (String × String))
  | notMapping
deriving DecidableEq, Repr

/-- Modelled from the spec (§4.5): the recognized unit-type keys. -/
def recognizedUnits : List String := ["length", "density"]

/-- Modelled from the spec (§4.5 `_check_set_unit`): fails with
`ValueError` when `units` is not a mapping, contains an unrecognized key,
or omits a key this Density instance requires (minimally `length`);
otherwise accepts. -/
def _check_set_unit (required : List String) (u : UnitsInput) :
    Except DensityError Unit :=
  match u with
  | .notMapping => .error .valueError
  | .mapping m =>
    if m.all (fun kv => recognizedUnits.contains kv.1)
        && required.all (fun r => m.any (fun kv => kv.1 == r)) then .ok ()
    else .error .valueError

/-- Modelled from the spec (§4.1): a dynamically typed scalar argument —
either numeric or a non-numeric value such as a string. -/
inductive PyVal where
  | num (q : ℚ)
  | str (s : String)
deriving DecidableEq, Repr

/-- Whether a dynamically typed value is numeric. -/
def PyVal.isNum : PyVal → Bool
  | .num _ => true
  | .str _ => false

/-- Numeric payload of a dynamically typed value (0 for non-numbers). -/
def PyVal.toQ : PyVal → ℚ
  | .num q => q
  | .str _ => 0

/-- Modelled from the spec (§4.1 fromUserBox): `gridcenter` must be
exactly 3 numeric scalars and each extent must be numeric, else
`ValueError`; on success the numeric center and extents are returned. -/
def validateUserBox (gridcenter : List PyVal) (xdim ydim zdim : PyVal) :
    Except DensityError ((ℚ × ℚ × ℚ) × (ℚ × ℚ × ℚ)) :=
  if gridcenter.length == 3 && gridcenter.all PyVal.isNum
      && xdim.isNum && ydim.isNum && zdim.isNum then
    .ok (((gridcenter.getD 0 (.num 0)).toQ, (gridcenter.getD 1 (.num 0)).toQ,
          (gridcenter.getD 2 (.num 0)).toQ),
         (xdim.toQ, ydim.toQ, zdim.toQ))
  else .error .valueError

/-- Modelled from the spec (§4.1): uniform bin edges of `n` bins spanning
`[lo, hi]`. -/
def uniformEdges (lo hi : ℚ) (n : ℕ) : List ℚ :=
  (List.range (n + 1)).map (fun (i : ℕ) => lo + (i : ℚ) * (hi - lo) / (n : ℚ))

/-- Modelled from the spec (§4.1, §9): on the user-box path the bin count
per axis is `round(extent/binWidth)`. -/
def userBoxBins (extent delta : ℚ) : ℕ := (round (extent / delta)).toNat

/-- Modelled from the spec (§4.1, §7): the advisory warning raised when
`padding` is supplied together with an explicit user-defined box. -/
def paddingWarning : String := "Box padding is not used in user defined grids."

/-- Modelled from the spec (§6, §4.1): the user-defined-box path of
`density_from_Universe`: the grid parameters are validated before any
frame processing; then a grid of `round(extent/delta)` bins per axis
centered on `gridcenter` is built, a warning is issued when `padding` was
supplied (and the padding value is otherwise ignored), and the sampled
coordinates of all frames are histogrammed. -/
def density_from_Universe_userBox (gridcenter : List PyVal)
    (xdim ydim zdim : PyVal) (delta : ℚ) (padding : Option ℚ)
    (frames : List (List P3)) :
    Except DensityError (List String × Density) :=
  match validateUserBox gridcenter xdim ydim zdim with
  | .error e => .error e
  | .ok ((cx, cy, cz), (xq, yq, zq)) =>
    let warns := match padding with
      | some _ => [paddingWarning]
      | none => []
    let ex := uniformEdges (cx - xq / 2) (cx + xq / 2) (userBoxBins xq delta)
    let ey := uniformEdges (cy - yq / 2) (cy + yq / 2) (userBoxBins yq delta)
    let ez := uniformEdges (cz - zq / 2) (cz + zq / 2) (userBoxBins zq delta)
    .ok (warns, histogramdd frames.flatten ex ey ez)

/-- Total number of grid cells. -/
def gridSize (ex ey ez : List ℚ) : ℕ :=
  (ex.length - 1) * (ey.length - 1) * (ez.length - 1)

/-- The all-zero histogram grid. -/
def zeroGrid (ex ey ez : List ℚ) : List ℚ :=
  (List.range (gridSize ex ey ez)).map (fun _ => 0)

/-- Modelled from the spec (§4.4): one frame's raw counts over the
flattened grid. -/
def frameCounts (pts : List P3) (ex ey ez : List ℚ) : List ℚ :=
  (histcounts pts ex ey ez).map Nat.cast

/-- Modelled from the spec (§4.4): elementwise accumulation of a frame's
counts into the running grid. -/
def addGrid (g h : List ℚ) : List ℚ := List.zipWith (· + ·) g h

/-- Modelled from the spec (§4.3, §4.4): streaming accumulation of the
sampled per-frame coordinate sets into the histogram grid. -/
def accumulate (coordSets : List (List P3)) (ex ey ez : List ℚ) : List ℚ :=
  coordSets.foldl (fun acc f => addGrid acc (frameCounts f ex ey ez))
    (zeroGrid ex ey ez)

/-- Modelled from the spec (§4.3 FrameSampler, §7): static mode evaluates
the selection once at setup; an empty static selection is the fatal
`NoDataError`-equivalent, raised before any trajectory frame is read. -/
def densityRunStatic (sel : List ℕ) (traj : List (List P3))
    (ex ey ez : List ℚ) : Except DensityError (List ℚ) :=
  if sel.isEmpty then .error .noData
  else .ok (accumulate (traj.map (fun fr => sel.filterMap fr.get?)) ex ey ez)

/-- Modelled from the spec (§4.3): dynamic mode re-evaluates the selection
on every sampled frame; frame `i` contributes the coordinates of the atom
indices `selAt i` selects on that frame. -/
def sampledSets (selAt : ℕ → List ℕ) (traj : List (List P3)) :
    List (List P3) :=
  (List.range traj.length).map (fun i => (selAt i).filterMap (traj.getD i []).get?)

/-- Modelled from the spec (§4.3): the dynamic-selection run; a frame on
which the selection matches zero atoms is not an error. -/
def densityRunDynamic (selAt : ℕ → List ℕ) (traj : List (List P3))
    (ex ey ez : List ℚ) : Except DensityError (List ℚ) :=
  .ok (accumulate (sampledSets selAt traj) ex ey ez)

/-- Modelled from the spec (§4.5): the supported on-disk numeric encodings
of `export`. -/
def dxTypes : List String := ["float", "double", "int", "byte"]

/-- Modelled from the spec (§4.5): the on-disk value stored for a cell
under each numeric encoding — `int` rounds to the nearest integer, `byte`
rounds and clamps to `[0, 255]`, `float` and `double` store the value at
the full precision of the rational model. -/
def encodeVal (t : String) (x : ℚ) : ℚ :=
  if t = "int" then ((round x : ℤ) : ℚ)
  else if t = "byte" then ((max 0 (min 255 (round x)) : ℤ) : ℚ)
  else x

/-- Worst-case quantization error of each supported encoding. -/
def precOf (t : String) : ℚ := if t = "int" ∨ t = "byte" then 1 / 2 else 0

/-- Modelled from the spec (§4.5, §6 grid file codec): the persisted
volumetric scalar-field file — encoding tag, origin, spacing, dimensions
and the cell values in grid scan order. -/
structure DXFile where
  typ : String
  origin : List ℚ
  delta : List ℚ
  dims : List ℕ
  data : List ℚ
deriving DecidableEq, Repr

/-- Modelled from the spec (§4.5 `export`): serialize the grid, geometry
and cell data, encoding every cell value with the chosen numeric type; an
unsupported type tag fails with a format error. -/
def Density.exportDX (d : Density) (t : String) : Except DensityError DXFile :=
  if t ∈ dxTypes then
    .ok { typ := t
          origin := originOf d.edges
          delta := deltaOf d.edges
          dims := nbinsOf d.edges
          data := d.grid.map (encodeVal t) }
  else .error .formatError

/-- Modelled from the spec (§4.5 load): parse a grid file back into a
Density, reconstructing the per-axis edges from origin, spacing and
dimensions. -/
def loadDX (f : DXFile) : Density :=
  { grid := f.data
    edges := (f.origin.zip (f.delta.zip f.dims)).map
      (fun od => (List.range (od.2.2 + 1)).map
        (fun (i : ℕ) => (od.1 - od.2.1 / 2) + (i : ℚ) * od.2.1))
    isDensity := true
    units := [("length", "A")] }

/-- Coordinate of a point along a splitting axis (0 = x, 1 = y, else z). -/
def coordAx (p : P3) (ax : ℕ) : ℚ :=
  if ax = 0 then p.x else if ax = 1 then p.y else p.z

/-- Modelled from the spec (§2, §4.2): the accelerated spatial index — a
k-d tree with splitting planes and leaf buckets. -/
inductive KDT where
  | lf (ps : List P3)
  | nd (ax : ℕ) (s : ℚ) (l r : KDT)

/-- All points stored in a k-d tree. -/
def KDT.pts : KDT → List P3
  | .lf ps => ps
  | .nd _ _ l r => l.pts ++ r.pts

/-- Build a k-d tree by recursive splitting on the cycling axis at the
first point's coordinate; `fuel` bounds the recursion depth. -/
def kdBuild : ℕ → ℕ → List P3 → KDT
  | 0, _, ps => .lf ps
  | _ + 1, _, [] => .lf []
  | fuel + 1, ax, p :: rest =>
    .nd ax (coordAx p ax)
      (kdBuild fuel ((ax + 1) % 3)
        ((p :: rest).filter (fun q => decide (coordAx q ax ≤ coordAx p ax))))
      (kdBuild fuel ((ax + 1) % 3)
        ((p :: rest).filter (fun q => ! decide (coordAx q ax ≤ coordAx p ax))))

/-- Range query with plane pruning: is some stored point within squared
distance `c2` of `p`? -/
def KDT.near : KDT → P3 → ℚ → Bool
  | .lf ps, p, c2 => ps.any (fun q => decide (dist2 p q ≤ c2))
  | .nd ax s l r, p, c2 =>
    if coordAx p ax ≤ s then
      l.near p c2 || (decide ((s - coordAx p ax) ^ 2 ≤ c2) && r.near p c2)
    else
      r.near p c2 || (decide ((coordAx p ax - s) ^ 2 ≤ c2) && l.near p c2)

/-- Well-formedness of a k-d tree: every node's left points lie at or
below the splitting plane, right points strictly above. -/
def KDT.WF : KDT → Prop
  | .lf _ => True
  | .nd ax s l r =>
    (∀ q ∈ l.pts, coordAx q ax ≤ s) ∧ (∀ q ∈ r.pts, s < coordAx q ax)
      ∧ l.WF ∧ r.WF

/-- Modelled from the spec (§4.2): the dense pairwise-distance reference
implementation of `filterWithin`. -/
def filterWithinBrute (setA setB : List P3) (cutoff : ℚ) (exclude : Bool) :
    List P3 :=
  setA.filter (fun a =>
    if exclude then ! setB.any (fun b => decide (dist2 a b ≤ cutoff ^ 2))
    else setB.any (fun b => decide (dist2 a b ≤ cutoff ^ 2)))

/-- Modelled from the spec (§4.2): the tree-accelerated implementation of
`filterWithin`. -/
def filterWithinKD (setA setB : List P3) (cutoff : ℚ) (exclude : Bool) :
    List P3 :=
  setA.filter (fun a =>
    if exclude then ! (kdBuild setB.length 0 setB).near a (cutoff ^ 2)
    else (kdBuild setB.length 0 setB).near a (cutoff ^ 2))

/-- Modelled from the spec (§4.2, and `notwithin_coordinates_factory` in
the test suite): the filter facade with the `not_within` mode flag and the
`use_kdtree` implementation switch. -/
def notwithin_coordinates (setA setB : List P3) (cutoff : ℚ)
    (not_within use_kdtree : Bool) : List P3 :=
  if use_kdtree then filterWithinKD setA setB cutoff not_within
  else filterWithinBrute setA setB cutoff not_within

/-! ### Theorems -/

/-- Helper: the index-wise midpoint formula agrees with the
`0.5*(edges[:-1] + edges[1:])` formulation for every edge list. -/
theorem midpoints_eq_zipWith_aux (e : List ℚ) :
    (List.range (e.length - 1)).map (fun i => (e.getD i 0 + e.getD (i + 1) 0) / 2)
      = List.zipWith (fun a b => (a + b) / 2) e.dropLast e.tail := by
  induction e with
  | nil => simp
  | cons a tl ih =>
    cases tl with
    | nil => simp
    | cons b rest =>
      rw [List.dropLast_cons₂, List.tail_cons, List.zipWith_cons_cons]
      have hlen : (a :: b :: rest).length - 1 = ((b :: rest).length - 1) + 1 := by
        simp
      rw [hlen, List.range_succ_eq_map, List.map_cons, List.map_map]
      congr 1

/-- Helper: over a uniform-width edge list, the total span equals the
number of bins times the common width. -/
theorem uniform_getLastD_sub_headD (dd : ℚ) :
    ∀ e : List ℚ, (∀ i, i + 1 < e.length → e.getD (i + 1) 0 - e.getD i 0 = dd) →
      e.getLastD 0 - e.headD 0 = ((e.length - 1 : ℕ) : ℚ) * dd := by
  intro e
  induction e with
  | nil => intro _; simp
  | cons a tl ih =>
    cases tl with
    | nil => intro _; simp
    | cons b rest =>
      intro h
      have hab : b - a = dd := by
        have := h 0 (by simp)
        simpa using this
      have h' : ∀ i, i + 1 < (b :: rest).length →
          (b :: rest).getD (i + 1) 0 - (b :: rest).getD i 0 = dd := by
        intro i hi
        have := h (i + 1) (by simp at hi ⊢; omega)
        simpa [List.getD_cons_succ] using this
      have hrec := ih h'
      have hlast : (a :: b :: rest).getLastD 0 = (b :: rest).getLastD 0 := by
        simp [List.getLastD_cons]
      rw [hlast]
      simp only [List.headD_cons, List.length_cons]
      have hn : (rest.length + 1 + 1 - 1 : ℕ) = rest.length + 1 := by omega
      rw [hn]
      have hrec2 : (b :: rest).getLastD 0 - b = ((rest.length : ℕ) : ℚ) * dd := by
        simpa using hrec
      push_cast
      push_cast at hrec2
      linear_combination hrec2 + hab

/-- C8: for every valid Density (axes with at least two edges, uniform
widths), `midpoints[i] = 0.5*(edges[i][:-1]+edges[i][1:])` exactly,
`origin[i]` is the first-bin midpoint per axis, and
`delta[i] = (edges[i][-1]-edges[i][0]) / nbins[i]`. -/
theorem C8_derived_grid_geometry (D : Density)
    (hlen : ∀ e ∈ D.edges, 2 ≤ e.length)
    (huni : ∀ e ∈ D.edges, ∃ dd : ℚ, ∀ i, i + 1 < e.length →
      e.getD (i + 1) 0 - e.getD i 0 = dd) :
    midpointsOf D.edges
        = D.edges.map (fun e => List.zipWith (fun a b => (a + b) / 2) e.dropLast e.tail)
      ∧ originOf D.edges = (midpointsOf D.edges).map (fun m => m.getD 0 0)
      ∧ deltaOf D.edges
        = D.edges.map (fun e => (e.getLastD 0 - e.headD 0) / ((e.length - 1 : ℕ) : ℚ)) := by
  refine ⟨?_, ?_, ?_⟩
  · unfold midpointsOf
    apply List.map_congr_left
    intro e _
    exact midpoints_eq_zipWith_aux e
  · unfold originOf midpointsOf
    rw [List.map_map]
    apply List.map_congr_left
    intro e he
    obtain ⟨m, hm⟩ : ∃ m, e.length - 1 = m + 1 :=
      ⟨e.length - 2, by have := hlen e he; omega⟩
    simp [Function.comp, hm, List.range_succ_eq_map]
  · unfold deltaOf
    apply List.map_congr_left
    intro e he
    obtain ⟨dd, hdd⟩ := huni e he
    have h2 := hlen e he
    have h10 : e.getD 1 0 - e.getD 0 0 = dd := hdd 0 (by omega)
    have hls := uniform_getLastD_sub_headD dd e hdd
    rw [h10, hls]
    have hz : ((e.length - 1 : ℕ) : ℚ) ≠ 0 := by
      rw [Nat.cast_ne_zero]
      omega
    rw [mul_comm, mul_div_assoc, div_self hz, mul_one]

/-- Witness for C8 at the concrete Density `dGeo`. -/
theorem C8_derived_grid_geometry_witness :
    (∀ e ∈ dGeo.edges, 2 ≤ e.length)
      ∧ (midpointsOf dGeo.edges
          = dGeo.edges.map (fun e => List.zipWith (fun a b => (a + b) / 2) e.dropLast e.tail)
        ∧ originOf dGeo.edges = (midpointsOf dGeo.edges).map (fun m => m.getD 0 0)
        ∧ deltaOf dGeo.edges
          = dGeo.edges.map (fun e =>
              (e.getLastD 0 - e.headD 0) / ((e.length - 1 : ℕ) : ℚ))) := by
  refine ⟨by decide, C8_derived_grid_geometry dGeo (by decide) ?_⟩
  intro e he
  have he' : e = [0, 1, 2] ∨ e = [0, 2, 4] ∨ e = [1, 4, 7] := by
    simpa [dGeo] using he
  rcases he' with h | h | h <;> subst h
  · refine ⟨1, fun i hi => ?_⟩
    have hb : i = 0 ∨ i = 1 := by simp at hi; omega
    rcases hb with rfl | rfl <;> norm_num
  · refine ⟨2, fun i hi => ?_⟩
    have hb : i = 0 ∨ i = 1 := by simp at hi; omega
    rcases hb with rfl | rfl <;> norm_num
  · refine ⟨3, fun i hi => ?_⟩
    have hb : i = 0 ∨ i = 1 := by simp at hi; omega
    rcases hb with rfl | rfl <;> norm_num

/-- C7: on a raw-count Density with nonzero cell volume, `make_density()`
followed by re-multiplying every cell by `delta.prod()` reproduces the
original raw counts (exactly, in the rational model). -/
theorem C7_make_density_roundtrip (d : Density) (h : d.isDensity = false)
    (hdv : deltaProd d.edges ≠ 0) :
    (make_density d).grid.map (· * deltaProd d.edges) = d.grid := by
  unfold make_density
  rw [if_neg (by simp [h])]
  simp only [List.map_map]
  have hmap : ∀ a ∈ d.grid,
      ((· * deltaProd d.edges) ∘ (· / deltaProd d.edges)) a = id a := by
    intro a _
    simp [Function.comp, div_mul_cancel₀ a hdv]
  rw [List.map_congr_left hmap, List.map_id]

/-- Helper: sums of pointwise sums of naturals split. -/
theorem sum_map_add_nat {α : Type} (l : List α) (g h : α → ℕ) :
    (l.map (fun x => g x + h x)).sum = (l.map g).sum + (l.map h).sum := by
  induction l with
  | nil => simp
  | cons a tl ih =>
    simp only [List.map_cons, List.sum_cons, ih]
    omega

/-- Helper: summing the indicator of `m` over `range N` counts whether
`m < N`. -/
theorem sum_indicator_range (m N : ℕ) :
    ((List.range N).map (fun l => if m = l then 1 else 0)).sum
      = if m < N then 1 else 0 := by
  induction N with
  | zero => simp
  | succ n ih =>
    rw [List.range_succ, List.map_append, List.sum_append, ih]
    simp only [List.map_cons, List.map_nil, List.sum_cons, List.sum_nil]
    by_cases h : m = n
    · subst h
      simp [Nat.lt_irrefl, Nat.lt_succ_self]
    · by_cases h2 : m < n
      · simp [h, h2, Nat.lt_succ_of_lt h2]
      · have h3 : ¬ m < n + 1 := by omega
        simp [h, h2, h3]

/-- Helper: the total count over all cells indexed by `range N` equals the
number of list elements whose (optional) index lands below `N`. -/
theorem sum_range_countP {α : Type} (pts : List α) (f : α → Option ℕ) (N : ℕ) :
    ((List.range N).map (fun l => pts.countP (fun p => f p == some l))).sum
      = pts.countP (fun p => (f p).any (fun l => l < N)) := by
  induction pts with
  | nil => simp
  | cons p tl ih =>
    rw [List.countP_cons]
    have hstep : ∀ l ∈ List.range N, (p :: tl).countP (fun q => f q == some l)
        = tl.countP (fun q => f q == some l)
          + (if f p = some l then 1 else 0) := by
      intro l _
      rw [List.countP_cons]
      simp [beq_iff_eq]
    rw [List.map_congr_left hstep, sum_map_add_nat, ih]
    congr 1
    cases hfp : f p with
    | none => simp
    | some m =>
      have : ∀ l ∈ List.range N, (if some m = some l then 1 else 0)
          = if m = l then (1 : ℕ) else 0 := by
        intro l _
        simp
      rw [List.map_congr_left this, sum_indicator_range]
      simp

/-- Helper: a bin index returned by `binIdx` is below the bin count of its
axis. -/
theorem binIdx_lt : ∀ (e : List ℚ) (x : ℚ) (i : ℕ),
    binIdx e x = some i → i + 1 < e.length := by
  intro e
  induction e with
  | nil =>
    intro x i h
    simp [binIdx] at h
  | cons a tl ih =>
    cases tl with
    | nil =>
      intro x i h
      simp [binIdx] at h
    | cons b rest =>
      intro x i h
      rw [binIdx] at h
      by_cases hc : a ≤ x ∧ (x < b ∨ (rest = [] ∧ x = b))
      · rw [if_pos hc] at h
        have : i = 0 := by
          simpa using h.symm
        subst this
        simp
      · rw [if_neg hc] at h
        cases hbi : binIdx (b :: rest) x with
        | none =>
          rw [hbi] at h
          simp at h
        | some j =>
          rw [hbi] at h
          have hj := ih x j hbi
          have hji : j + 1 = i := by
            simpa using h
          simp only [List.length_cons] at hj ⊢
          omega

/-- Helper: a flattened bin index returned by `linIdx3` is below the total
cell count of the grid. -/
theorem linIdx3_lt (ex ey ez : List ℚ) (p : P3) (l : ℕ)
    (h : linIdx3 ex ey ez p = some l) :
    l < (ex.length - 1) * (ey.length - 1) * (ez.length - 1) := by
  simp only [linIdx3, bind, Option.bind_eq_some, Option.pure_def,
    Option.some.injEq] at h
  obtain ⟨i, hi, j, hj, k, hk, hl⟩ := h
  have hbi := binIdx_lt ex p.x i hi
  have hbj := binIdx_lt ey p.y j hj
  have hbk := binIdx_lt ez p.z k hk
  subst hl
  have h1 : i + 1 ≤ ex.length - 1 := by omega
  have h2 : j + 1 ≤ ey.length - 1 := by omega
  have h3 : k + 1 ≤ ez.length - 1 := by omega
  calc (i * (ey.length - 1) + j) * (ez.length - 1) + k
      < (i * (ey.length - 1) + j + 1) * (ez.length - 1) := by
        have := h3
        nlinarith
    _ ≤ ((ex.length - 1) * (ey.length - 1)) * (ez.length - 1) := by
        apply Nat.mul_le_mul_right
        have : i * (ey.length - 1) + (ey.length - 1) ≤ (ex.length - 1) * (ey.length - 1) := by
          have := Nat.mul_le_mul_right (ey.length - 1) h1
          simpa [Nat.succ_mul] using this
        omega
    _ = (ex.length - 1) * (ey.length - 1) * (ez.length - 1) := by ring

/-- Helper: when every point lands inside the grid, the raw histogram
counts sum to the number of points. -/
theorem histcounts_sum (pts : List P3) (ex ey ez : List ℚ)
    (hin : ∀ p ∈ pts, (linIdx3 ex ey ez p).isSome) :
    (histcounts pts ex ey ez).sum = pts.length := by
  unfold histcounts
  rw [sum_range_countP]
  have : ∀ p ∈ pts, ((linIdx3 ex ey ez p).any
      (fun l => l < (ex.length - 1) * (ey.length - 1) * (ez.length - 1))) = true := by
    intro p hp
    cases hfp : linIdx3 ex ey ez p with
    | none =>
      have := hin p hp
      rw [hfp] at this
      simp at this
    | some l =>
      have := linIdx3_lt ex ey ez p l hfp
      simpa using this
  calc pts.countP _ = pts.countP (fun _ => true) := List.countP_congr (by
        intro p hp
        simp [this p hp])
    _ = pts.length := by simp

/-- Helper: dividing every entry of a rational list by a constant divides
the sum. -/
theorem sum_map_div_rat (l : List ℚ) (c : ℚ) :
    (l.map (· / c)).sum = l.sum / c := by
  induction l with
  | nil => simp
  | cons a tl ih =>
    simp only [List.map_cons, List.sum_cons, ih]
    ring

/-- C1 as written is false: for a histogram of one point inside a grid of
cell volume 8, the raw (pre-normalization) grid has
`grid.sum() * delta.prod() = 8 ≠ 1 = N`. -/
theorem C1_counterexample :
    ¬ ((histogramdd ptsC1 edgeC1 edgeC1 edgeC1).grid.sum
        * deltaProd (histogramdd ptsC1 edgeC1 edgeC1 edgeC1).edges
      = (ptsC1.length : ℚ)) := by
  norm_num [histogramdd, histcounts, linIdx3, binIdx, deltaProd, deltaOf,
    ptsC1, edgeC1, List.range_succ, bind]

/-- C1 amended: for a histogram of `N` points all inside the grid bounds,
the raw grid satisfies `grid.sum() == N`; the identity
`grid.sum() * delta.prod() == N` holds after `make_density()` has been
applied (the state the test suite checks), not before. -/
theorem C1_mass_conservation (pts : List P3) (ex ey ez : List ℚ)
    (hin : ∀ p ∈ pts, (linIdx3 ex ey ez p).isSome)
    (hdv : deltaProd [ex, ey, ez] ≠ 0) :
    (histogramdd pts ex ey ez).grid.sum = (pts.length : ℚ)
      ∧ (make_density (histogramdd pts ex ey ez)).grid.sum
          * deltaProd (histogramdd pts ex ey ez).edges = (pts.length : ℚ) := by
  have hraw : (histogramdd pts ex ey ez).grid.sum = (pts.length : ℚ) := by
    show ((histcounts pts ex ey ez).map Nat.cast).sum = _
    rw [← Nat.cast_list_sum, histcounts_sum pts ex ey ez hin]
  refine ⟨hraw, ?_⟩
  have hed : (histogramdd pts ex ey ez).edges = [ex, ey, ez] := rfl
  have hflag : (histogramdd pts ex ey ez).isDensity = false := rfl
  unfold make_density
  rw [if_neg (by simp [hflag])]
  simp only [hed]
  rw [sum_map_div_rat, hraw, div_mul_cancel₀ _ hdv]

/-- Witness for the amended C1 at the one-point data set. -/
theorem C1_mass_conservation_witness :
    (∀ p ∈ ptsC1, (linIdx3 edgeC1 edgeC1 edgeC1 p).isSome)
      ∧ ((histogramdd ptsC1 edgeC1 edgeC1 edgeC1).grid.sum = (ptsC1.length : ℚ)
        ∧ (make_density (histogramdd ptsC1 edgeC1 edgeC1 edgeC1)).grid.sum
            * deltaProd (histogramdd ptsC1 edgeC1 edgeC1 edgeC1).edges
          = (ptsC1.length : ℚ)) := by
  have hin : ∀ p ∈ ptsC1, (linIdx3 edgeC1 edgeC1 edgeC1 p).isSome := by
    intro p hp
    have : p = (⟨1, 1, 1⟩ : P3) := by simpa [ptsC1] using hp
    subst this
    norm_num [linIdx3, binIdx, edgeC1, bind]
  exact ⟨hin, C1_mass_conservation ptsC1 edgeC1 edgeC1 edgeC1 hin
    (by norm_num [deltaProd, deltaOf, edgeC1])⟩

/-- Witness for C7 at the concrete raw Density `dRaw`. -/
theorem C7_make_density_roundtrip_witness :
    dRaw.isDensity = false ∧ deltaProd dRaw.edges ≠ 0
      ∧ (make_density dRaw).grid.map (· * deltaProd dRaw.edges) = dRaw.grid :=
  ⟨rfl, by norm_num [deltaProd, deltaOf, dRaw],
    C7_make_density_roundtrip dRaw rfl (by norm_num [deltaProd, deltaOf, dRaw])⟩

/-- C9: `_check_set_unit(units)` fails with ValueError in exactly these
cases: `units` is not a mapping, `units` contains a key outside the
recognized set, or `units` omits a key the instance requires (at minimum
`length`); it never silently substitutes a default. -/
theorem C9_check_set_unit_valueerror (required : List String) (u : UnitsInput) :
    _check_set_unit required u = .error .valueError
      ↔ (u = .notMapping
        ∨ ∃ m, u = .mapping m
          ∧ ((∃ kv ∈ m, kv.1 ∉ recognizedUnits)
            ∨ ∃ r ∈ required, ∀ kv ∈ m, kv.1 ≠ r)) := by
  cases u with
  | notMapping => simp [_check_set_unit]
  | mapping m =>
    by_cases hall : (m.all (fun kv => recognizedUnits.contains kv.1)
        && required.all (fun r => m.any (fun kv => kv.1 == r))) = true
    · rw [_check_set_unit, if_pos hall]
      rw [Bool.and_eq_true, List.all_eq_true, List.all_eq_true] at hall
      obtain ⟨h1, h2⟩ := hall
      constructor
      · intro h
        exact absurd h (by simp)
      · rintro (h | ⟨m2, hm2, hbad⟩)
        · exact absurd h (by simp)
        · exfalso
          obtain rfl : m = m2 := by
            injection hm2
          rcases hbad with ⟨kv, hkv, hnr⟩ | ⟨r, hr, hnone⟩
          · exact hnr (by simpa using h1 kv hkv)
          · have hany := h2 r hr
            rw [List.any_eq_true] at hany
            obtain ⟨kv, hkv, hkvr⟩ := hany
            exact hnone kv hkv (by simpa using hkvr)
    · rw [_check_set_unit, if_neg hall]
      have h' : m.all (fun kv => recognizedUnits.contains kv.1) = false
          ∨ required.all (fun r => m.any (fun kv => kv.1 == r)) = false := by
        by_cases hA : m.all (fun kv => recognizedUnits.contains kv.1) = true
        · by_cases hB : required.all (fun r => m.any (fun kv => kv.1 == r)) = true
          · exact absurd (by rw [hA, hB]; rfl) hall
          · exact Or.inr (by simpa using hB)
        · exact Or.inl (by simpa using hA)
      constructor
      · intro _
        refine Or.inr ⟨m, rfl, ?_⟩
        rcases h' with h | h
        · rw [List.all_eq_false] at h
          obtain ⟨kv, hkv, hc⟩ := h
          exact Or.inl ⟨kv, hkv, by simpa using hc⟩
        · rw [List.all_eq_false] at h
          obtain ⟨r, hr, hc⟩ := h
          refine Or.inr ⟨r, hr, ?_⟩
          intro kv hkv
          rw [List.any_eq_true] at hc
          push_neg at hc
          simpa using hc kv hkv
      · intro _
        rfl

/-- C5: with a user-defined box, `density_from_Universe` fails with
`ValueError` exactly when `gridcenter` does not have 3 elements, some
element of `gridcenter` is non-numeric, or one of the extents
xdim/ydim/zdim is non-numeric; the outcome is the same for every
trajectory, so the error precedes any frame processing. -/
theorem C5_userbox_valueerrors (gridcenter : List PyVal)
    (xdim ydim zdim : PyVal) (delta : ℚ) (padding : Option ℚ)
    (frames : List (List P3)) :
    density_from_Universe_userBox gridcenter xdim ydim zdim delta padding
        frames = .error .valueError
      ↔ (gridcenter.length ≠ 3
        ∨ (∃ v ∈ gridcenter, v.isNum = false)
        ∨ xdim.isNum = false ∨ ydim.isNum = false ∨ zdim.isNum = false) := by
  unfold density_from_Universe_userBox validateUserBox
  by_cases hc : (gridcenter.length == 3 && gridcenter.all PyVal.isNum
      && xdim.isNum && ydim.isNum && zdim.isNum) = true
  · rw [if_pos hc]
    simp only [Bool.and_eq_true, beq_iff_eq, List.all_eq_true] at hc
    obtain ⟨⟨⟨⟨hlen, hallnum⟩, hx⟩, hy⟩, hz⟩ := hc
    constructor
    · intro h
      exact absurd h (by simp)
    · rintro (h | ⟨v, hv, hnv⟩ | h | h | h)
      · exact absurd hlen h
      · exact absurd (hallnum v hv) (by simp [hnv])
      · exact absurd hx (by simp [h])
      · exact absurd hy (by simp [h])
      · exact absurd hz (by simp [h])
  · rw [if_neg hc]
    constructor
    · intro _
      by_cases h1 : gridcenter.length = 3
      · by_cases h2 : gridcenter.all PyVal.isNum = true
        · by_cases h3 : xdim.isNum = true
          · by_cases h4 : ydim.isNum = true
            · by_cases h5 : zdim.isNum = true
              · exact absurd (by simp [h1, h2, h3, h4, h5]) hc
              · exact Or.inr (Or.inr (Or.inr (Or.inr (by simpa using h5))))
            · exact Or.inr (Or.inr (Or.inr (Or.inl (by simpa using h4))))
          · exact Or.inr (Or.inr (Or.inl (by simpa using h3)))
        · have h2' := List.all_eq_false.mp (by simpa using h2)
          refine Or.inr (Or.inl ?_)
          obtain ⟨v, hv, hnv⟩ := h2'
          exact ⟨v, hv, by simpa using hnv⟩
      · exact Or.inl h1
    · intro _
      rfl

/-- C6: supplying `padding` together with an explicit user box raises the
advisory padding warning, ignores the padding (the returned Density is the
one the padding-free run returns), and the grid shape is exactly
`(xdim/delta, ydim/delta, zdim/delta)` bins per axis. -/
theorem C6_padding_userbox_ignored (cx cy cz xq yq zq delta p : ℚ)
    (nx ny nz : ℕ) (hδ : 0 < delta)
    (hx : xq = nx * delta) (hy : yq = ny * delta) (hz : zq = nz * delta)
    (frames : List (List P3)) :
    ∃ D : Density,
      density_from_Universe_userBox [.num cx, .num cy, .num cz]
          (.num xq) (.num yq) (.num zq) delta (some p) frames
        = .ok ([paddingWarning], D)
      ∧ density_from_Universe_userBox [.num cx, .num cy, .num cz]
          (.num xq) (.num yq) (.num zq) delta none frames
        = .ok ([], D)
      ∧ nbinsOf D.edges = [nx, ny, nz] := by
  have hbx : userBoxBins xq delta = nx := by
    unfold userBoxBins
    rw [hx, mul_div_cancel_right₀ _ (ne_of_gt hδ), round_natCast,
      Int.toNat_natCast]
  have hby : userBoxBins yq delta = ny := by
    unfold userBoxBins
    rw [hy, mul_div_cancel_right₀ _ (ne_of_gt hδ), round_natCast,
      Int.toNat_natCast]
  have hbz : userBoxBins zq delta = nz := by
    unfold userBoxBins
    rw [hz, mul_div_cancel_right₀ _ (ne_of_gt hδ), round_natCast,
      Int.toNat_natCast]
  refine ⟨histogramdd frames.flatten
      (uniformEdges (cx - xq / 2) (cx + xq / 2) nx)
      (uniformEdges (cy - yq / 2) (cy + yq / 2) ny)
      (uniformEdges (cz - zq / 2) (cz + zq / 2) nz), ?_, ?_, ?_⟩
  · simp [density_from_Universe_userBox, validateUserBox, PyVal.isNum,
      PyVal.toQ, hbx, hby, hbz]
  · simp [density_from_Universe_userBox, validateUserBox, PyVal.isNum,
      PyVal.toQ, hbx, hby, hbz]
  · have hlen : ∀ (lo hi : ℚ) (n : ℕ), (uniformEdges lo hi n).length = n + 1 := by
      intro lo hi n
      simp [uniformEdges]
    simp [nbinsOf, histogramdd, hlen]

/-- Witness for C6 at the concrete configuration of the test suite:
center (56,45,35), extents 8×12×17, delta 1, padding 1. -/
theorem C6_padding_userbox_ignored_witness :
    (0:ℚ) < 1
      ∧ (∃ D : Density,
        density_from_Universe_userBox [.num 56, .num 45, .num 35]
            (.num 8) (.num 12) (.num 17) 1 (some 1) []
          = .ok ([paddingWarning], D)
        ∧ density_from_Universe_userBox [.num 56, .num 45, .num 35]
            (.num 8) (.num 12) (.num 17) 1 none []
          = .ok ([], D)
        ∧ nbinsOf D.edges = [8, 12, 17]) :=
  ⟨by norm_num,
    C6_padding_userbox_ignored 56 45 35 8 12 17 1 1 8 12 17 (by norm_num)
      (by norm_num) (by norm_num) (by norm_num) []⟩

/-- Helper: one frame's counts list always has exactly one entry per grid
cell. -/
theorem frameCounts_length (pts : List P3) (ex ey ez : List ℚ) :
    (frameCounts pts ex ey ez).length = gridSize ex ey ez := by
  simp [frameCounts, histcounts, gridSize]

/-- Helper: zipping a list with at least as many zeros leaves it
unchanged. -/
theorem zipWith_add_zeros (a : List ℚ) :
    ∀ (l : List ℕ), a.length ≤ l.length →
      List.zipWith (· + ·) a (l.map (fun _ => (0 : ℚ))) = a := by
  induction a with
  | nil =>
    intro l _
    simp
  | cons x xs ih =>
    intro l hl
    cases l with
    | nil => simp at hl
    | cons y ys =>
      simp only [List.map_cons, List.zipWith_cons_cons, add_zero]
      rw [ih ys (by simpa using hl)]

/-- Helper: accumulating an empty frame leaves the running grid
unchanged. -/
theorem addGrid_empty_frame (acc : List ℚ) (ex ey ez : List ℚ)
    (hlen : acc.length ≤ gridSize ex ey ez) :
    addGrid acc (frameCounts [] ex ey ez) = acc := by
  have hz : frameCounts [] ex ey ez
      = (List.range (gridSize ex ey ez)).map (fun _ => (0 : ℚ)) := by
    unfold frameCounts histcounts gridSize
    simp [List.countP_nil, List.map_map, Function.comp]
  rw [hz]
  exact zipWith_add_zeros acc (List.range (gridSize ex ey ez)) (by simpa using hlen)

/-- Helper: the running grid keeps its cell count through accumulation. -/
theorem foldl_addGrid_length (ex ey ez : List ℚ) :
    ∀ (cs : List (List P3)) (acc : List ℚ), acc.length = gridSize ex ey ez →
      (cs.foldl (fun a f => addGrid a (frameCounts f ex ey ez)) acc).length
        = gridSize ex ey ez := by
  intro cs
  induction cs with
  | nil =>
    intro acc h
    simpa using h
  | cons c tl ih =>
    intro acc h
    simp only [List.foldl_cons]
    apply ih
    simp [addGrid, List.length_zipWith, h, frameCounts_length]

/-- Helper: dropping an empty coordinate set from the sampled sequence
does not change the accumulated histogram. -/
theorem accumulate_eraseIdx_nil (cs : List (List P3)) (ex ey ez : List ℚ)
    (i : ℕ) (hi : i < cs.length) (hnil : cs.getD i [] = []) :
    accumulate cs ex ey ez = accumulate (cs.eraseIdx i) ex ey ez := by
  have hsplit : cs = cs.take i ++ [] :: cs.drop (i + 1) := by
    conv_lhs => rw [← List.take_append_drop i cs]
    congr 1
    rw [List.drop_eq_getElem_cons hi]
    congr 1
    rw [← List.getD_eq_getElem cs [] hi]
    exact hnil
  rw [List.eraseIdx_eq_take_drop_succ]
  conv_lhs => rw [hsplit]
  unfold accumulate
  rw [List.foldl_append, List.foldl_append, List.foldl_cons]
  congr 1
  apply addGrid_empty_frame
  exact le_of_eq (foldl_addGrid_length ex ey ez (cs.take i) (zeroGrid ex ey ez)
    (by simp [zeroGrid]))

/-- C4: a static selection matching zero atoms fails with the
`NoDataError`-equivalent for every trajectory (hence before any frame is
read), while in dynamic mode the run completes and a sampled frame whose
selection matches zero atoms contributes zero counts: the histogram equals
the one accumulated with that frame dropped. -/
theorem C4_zero_atom_selection (sel : List ℕ) (selAt : ℕ → List ℕ)
    (traj : List (List P3)) (ex ey ez : List ℚ) (i : ℕ)
    (hsel : sel = []) (hi : i < traj.length) (hdyn : selAt i = []) :
    densityRunStatic sel traj ex ey ez = .error .noData
      ∧ densityRunDynamic selAt traj ex ey ez
        = .ok (accumulate ((sampledSets selAt traj).eraseIdx i) ex ey ez) := by
  constructor
  · simp [densityRunStatic, hsel]
  · unfold densityRunDynamic
    congr 1
    apply accumulate_eraseIdx_nil
    · simpa [sampledSets] using hi
    · have hilen : i < (sampledSets selAt traj).length := by
        simpa [sampledSets] using hi
      rw [List.getD_eq_getElem _ [] hilen]
      simp [sampledSets, hdyn]

/-- Witness for C4: empty static selection over a one-frame trajectory,
and a dynamic selection that matches nothing on that frame. -/
theorem C4_zero_atom_selection_witness :
    densityRunStatic [] [[⟨0, 0, 0⟩]] edgeC1 edgeC1 edgeC1 = .error .noData
      ∧ densityRunDynamic (fun _ => []) [[⟨0, 0, 0⟩]] edgeC1 edgeC1 edgeC1
        = .ok (accumulate ((sampledSets (fun _ => []) [[⟨0, 0, 0⟩]]).eraseIdx 0)
            edgeC1 edgeC1 edgeC1) :=
  C4_zero_atom_selection [] (fun _ => []) [[⟨0, 0, 0⟩]] edgeC1 edgeC1 edgeC1 0
    rfl (by simp) rfl

/-- Helper: every encoding's worst-case error is nonnegative. -/
theorem precOf_nonneg (t : String) : 0 ≤ precOf t := by
  unfold precOf
  split_ifs <;> norm_num

/-- Helper: each supported encoding stores a cell value within its
worst-case quantization error (for `byte`, provided the value is in
range). -/
theorem encodeVal_err (t : String) (x : ℚ) (ht : t ∈ dxTypes)
    (hb : t = "byte" → 0 ≤ x ∧ x ≤ 255) :
    |encodeVal t x - x| ≤ precOf t := by
  have ht' : t = "float" ∨ t = "double" ∨ t = "int" ∨ t = "byte" := by
    simpa [dxTypes] using ht
  rcases ht' with rfl | rfl | rfl | rfl
  · simp [encodeVal, precOf]
  · simp [encodeVal, precOf]
  · rw [show encodeVal "int" x = ((round x : ℤ) : ℚ) from by simp [encodeVal],
      show precOf "int" = 1 / 2 from by norm_num [precOf], abs_sub_comm]
    exact abs_sub_round x
  · obtain ⟨h0, h255⟩ := hb rfl
    have hr0 : (0 : ℤ) ≤ round x := by
      rw [round_eq]
      apply Int.le_floor.mpr
      push_cast
      linarith
    have hr255 : round x ≤ 255 := by
      rw [round_eq]
      have : ⌊x + 1 / 2⌋ < 256 := Int.floor_lt.mpr (by push_cast; linarith)
      omega
    have hclamp : max 0 (min 255 (round x)) = round x := by omega
    rw [show encodeVal "byte" x = ((max 0 (min 255 (round x)) : ℤ) : ℚ) from by
        simp [encodeVal],
      hclamp, show precOf "byte" = 1 / 2 from by norm_num [precOf], abs_sub_comm]
    exact abs_sub_round x

/-- Helper: cellwise quantization error bound for a whole encoded grid,
stated index-by-index with out-of-range indices reading the default 0. -/
theorem map_encode_getD_err (t : String) (ht : t ∈ dxTypes) :
    ∀ l : List ℚ, (t = "byte" → ∀ x ∈ l, 0 ≤ x ∧ x ≤ 255) →
      ∀ i : ℕ, |(l.map (encodeVal t)).getD i 0 - l.getD i 0| ≤ precOf t := by
  intro l
  induction l with
  | nil =>
    intro _ i
    simpa using precOf_nonneg t
  | cons a tl ih =>
    intro hb i
    cases i with
    | zero =>
      simp only [List.map_cons, List.getD_cons_zero]
      exact encodeVal_err t a ht (fun h => hb h a (by simp))
    | succ n =>
      simp only [List.map_cons, List.getD_cons_succ]
      exact ih (fun h x hx => hb h x (List.mem_cons_of_mem a hx)) n

/-- C2: for every Density and every supported encoding in
float/double/int/byte (with `byte` cell values in its representable
range), export succeeds, records the encoding tag, and reloading the file
reproduces the grid within the encoding's precision; an unsupported type
tag fails with a format error. -/
theorem C2_export_roundtrip (d : Density) (t : String)
    (hbyte : t = "byte" → ∀ x ∈ d.grid, 0 ≤ x ∧ x ≤ 255) :
    (t ∈ dxTypes →
      ∃ f, d.exportDX t = .ok f ∧ f.typ = t
        ∧ (loadDX f).grid.length = d.grid.length
        ∧ ∀ i : ℕ, |(loadDX f).grid.getD i 0 - d.grid.getD i 0| ≤ precOf t)
    ∧ (t ∉ dxTypes → d.exportDX t = .error .formatError) := by
  constructor
  · intro ht
    refine ⟨{ typ := t
              origin := originOf d.edges
              delta := deltaOf d.edges
              dims := nbinsOf d.edges
              data := d.grid.map (encodeVal t) }, ?_, rfl, ?_, ?_⟩
    · unfold Density.exportDX
      rw [if_pos ht]
    · simp [loadDX]
    · intro i
      simpa [loadDX] using map_encode_getD_err t ht d.grid hbyte i
  · intro ht
    unfold Density.exportDX
    rw [if_neg ht]

/-- Witness for C2 at the concrete Density `dRaw` and the `byte`
encoding. -/
theorem C2_export_roundtrip_witness :
    ("byte" ∈ dxTypes)
      ∧ (∃ f, dRaw.exportDX "byte" = .ok f ∧ f.typ = "byte"
        ∧ (loadDX f).grid.length = dRaw.grid.length
        ∧ ∀ i : ℕ,
            |(loadDX f).grid.getD i 0 - dRaw.grid.getD i 0| ≤ precOf "byte") := by
  have hb : "byte" = "byte" → ∀ x ∈ dRaw.grid, (0 : ℚ) ≤ x ∧ x ≤ 255 := by
    intro _ x hx
    have hx' : x = 2 ∨ x = 3 := by simpa [dRaw] using hx
    rcases hx' with rfl | rfl <;> norm_num
  exact ⟨by simp [dxTypes],
    (C2_export_roundtrip dRaw "byte" hb).1 (by simp [dxTypes])⟩

/-- Helper: the squared per-axis separation is a lower bound on the
squared distance. -/
theorem coordAx_sq_le_dist2 (p q : P3) (ax : ℕ) :
    (coordAx p ax - coordAx q ax) ^ 2 ≤ dist2 p q := by
  unfold coordAx dist2
  split_ifs <;>
    nlinarith [sq_nonneg (p.x - q.x), sq_nonneg (p.y - q.y), sq_nonneg (p.z - q.z)]

/-- Helper: building a k-d tree preserves point membership. -/
theorem kdBuild_mem : ∀ (fuel ax : ℕ) (ps : List P3) (q : P3),
    q ∈ (kdBuild fuel ax ps).pts ↔ q ∈ ps := by
  intro fuel
  induction fuel with
  | zero =>
    intro ax ps q
    exact Iff.rfl
  | succ n ih =>
    intro ax ps q
    cases ps with
    | nil => exact Iff.rfl
    | cons p rest =>
      rw [show kdBuild (n + 1) ax (p :: rest)
          = KDT.nd ax (coordAx p ax)
              (kdBuild n ((ax + 1) % 3) ((p :: rest).filter
                (fun q => decide (coordAx q ax ≤ coordAx p ax))))
              (kdBuild n ((ax + 1) % 3) ((p :: rest).filter
                (fun q => ! decide (coordAx q ax ≤ coordAx p ax)))) from rfl]
      simp only [KDT.pts, List.mem_append, ih, List.mem_filter]
      constructor
      · rintro (⟨hq, _⟩ | ⟨hq, _⟩) <;> exact hq
      · intro hq
        by_cases hc : coordAx q ax ≤ coordAx p ax
        · exact Or.inl ⟨hq, by simpa using hc⟩
        · exact Or.inr ⟨hq, by simpa using hc⟩

/-- Helper: the built k-d tree is well formed — left points at or below
each splitting plane, right points strictly above. -/
theorem kdBuild_wf : ∀ (fuel ax : ℕ) (ps : List P3), (kdBuild fuel ax ps).WF := by
  intro fuel
  induction fuel with
  | zero =>
    intro ax ps
    trivial
  | succ n ih =>
    intro ax ps
    cases ps with
    | nil => trivial
    | cons p rest =>
      refine ⟨?_, ?_, ih _ _, ih _ _⟩
      · intro q hq
        have hmem := (kdBuild_mem n ((ax + 1) % 3) _ q).mp hq
        have := (List.mem_filter.mp hmem).2
        simpa using this
      · intro q hq
        have hmem := (kdBuild_mem n ((ax + 1) % 3) _ q).mp hq
        have := (List.mem_filter.mp hmem).2
        have hnle : ¬ coordAx q ax ≤ coordAx p ax := by simpa using this
        exact lt_of_not_le hnle

/-- Helper: on well-formed trees the pruned range query is exact — it
answers whether some stored point lies within the squared cutoff. -/
theorem kd_near_iff : ∀ t : KDT, t.WF → ∀ (p : P3) (c2 : ℚ),
    (t.near p c2 = true ↔ ∃ q ∈ t.pts, dist2 p q ≤ c2) := by
  intro t
  induction t with
  | lf ps =>
    intro _ p c2
    simp [KDT.near, KDT.pts, List.any_eq_true]
  | nd ax s l r ihl ihr =>
    intro hwf p c2
    obtain ⟨hl, hr, wfl, wfr⟩ := hwf
    by_cases hps : coordAx p ax ≤ s
    · rw [show (KDT.nd ax s l r).near p c2
          = (l.near p c2 || (decide ((s - coordAx p ax) ^ 2 ≤ c2) && r.near p c2))
          from by simp [KDT.near, hps]]
      simp only [Bool.or_eq_true, Bool.and_eq_true, decide_eq_true_eq,
        ihl wfl p c2, ihr wfr p c2, KDT.pts, List.mem_append]
      constructor
      · rintro (⟨q, hq, hd⟩ | ⟨_, q, hq, hd⟩)
        · exact ⟨q, Or.inl hq, hd⟩
        · exact ⟨q, Or.inr hq, hd⟩
      · rintro ⟨q, hql | hqr, hd⟩
        · exact Or.inl ⟨q, hql, hd⟩
        · refine Or.inr ⟨?_, q, hqr, hd⟩
          have hqs : s < coordAx q ax := hr q hqr
          have h1 : (s - coordAx p ax) ^ 2 ≤ (coordAx q ax - coordAx p ax) ^ 2 := by
            nlinarith
          have h2 : (coordAx q ax - coordAx p ax) ^ 2 ≤ dist2 p q := by
            rw [show (coordAx q ax - coordAx p ax) ^ 2
                = (coordAx p ax - coordAx q ax) ^ 2 from by ring]
            exact coordAx_sq_le_dist2 p q ax
          linarith
    · rw [show (KDT.nd ax s l r).near p c2
          = (r.near p c2 || (decide ((coordAx p ax - s) ^ 2 ≤ c2) && l.near p c2))
          from by simp [KDT.near, hps]]
      have hsp : s < coordAx p ax := lt_of_not_le hps
      simp only [Bool.or_eq_true, Bool.and_eq_true, decide_eq_true_eq,
        ihl wfl p c2, ihr wfr p c2, KDT.pts, List.mem_append]
      constructor
      · rintro (⟨q, hq, hd⟩ | ⟨_, q, hq, hd⟩)
        · exact ⟨q, Or.inr hq, hd⟩
        · exact ⟨q, Or.inl hq, hd⟩
      · rintro ⟨q, hql | hqr, hd⟩
        · refine Or.inr ⟨?_, q, hql, hd⟩
          have hqs : coordAx q ax ≤ s := hl q hql
          have h1 : (coordAx p ax - s) ^ 2 ≤ (coordAx p ax - coordAx q ax) ^ 2 := by
            nlinarith
          have h2 : (coordAx p ax - coordAx q ax) ^ 2 ≤ dist2 p q :=
            coordAx_sq_le_dist2 p q ax
          linarith
        · exact Or.inl ⟨q, hqr, hd⟩

/-- Helper: the k-d tree query over the built tree computes the same
boolean as the dense any-within scan. -/
theorem kd_near_eq_any (setB : List P3) (a : P3) (c2 : ℚ) :
    (kdBuild setB.length 0 setB).near a c2
      = setB.any (fun b => decide (dist2 a b ≤ c2)) := by
  rw [Bool.eq_iff_iff,
    kd_near_iff (kdBuild setB.length 0 setB) (kdBuild_wf setB.length 0 setB) a c2]
  simp [List.any_eq_true, kdBuild_mem]

/-- C3: for every pair of coordinate sets, every cutoff, and both modes
(`not_within` false/true), the tree-accelerated and the brute-force
implementations of the within-cutoff filter return the same list of
points of the first set. -/
theorem C3_kdtree_matches_bruteforce (setA setB : List P3) (cutoff : ℚ)
    (not_within : Bool) :
    notwithin_coordinates setA setB cutoff not_within true
      = notwithin_coordinates setA setB cutoff not_within false := by
  show filterWithinKD setA setB cutoff not_within
    = filterWithinBrute setA setB cutoff not_within
  unfold filterWithinKD filterWithinBrute
  apply List.filter_congr
  intro a _
  rw [kd_near_eq_any]

end MDADensity
